import Mathlib

/-!
Shallow embedding of the JSONL export/import subsystem of the repository
(`crates/jfp/src/storage/jsonl.rs`), together with the parts of the storage
boundary it relies on.

Modelling conventions:
* JSON texts are modelled at the level the algorithm inspects them: a file is
  a list of lines, and each line is either blank (whitespace-only), a line
  that fails to parse as JSON at all, or a parsed JSON value.  The
  text-to-`Json`-value correspondence is serde_json's job, outside the
  repository's code; the repository's logic, which is what is embedded here,
  operates on the parsed values.
* Timestamps (`Utc::now()`) are passed in as an explicit `now : String`
  parameter.
* Fallible store and filesystem operations are modelled by explicit success
  flags (`ExportFx`, `ImportFx`), and each engine additionally returns the
  list of durable effects it performed, in order, so that sequencing claims
  ("the version marker is advanced only after the primary operation") are
  statable.
-/

namespace Jfp

/-- A JSON value, as parsed by serde_json: the shapes the import code
distinguishes (objects, strings, numbers, arrays, null, booleans).  Numbers
are modelled as integers, which covers every numeric field of the data model
(`count`, `schema_version`). -/
inductive Json where
  | null
  | bool (b : Bool)
  | num (n : Int)
  | str (s : String)
  | arr (xs : List Json)
  | obj (fields : List (String × Json))

/-- Field lookup `Value::get(key)` of serde_json: field lookup on an object, `none` on any
other value (mirrors line 129 of jsonl.rs, `parsed_first_line.get("_meta")`). -/
def jsonGet (v : Json) (k : String) : Option Json :=
  match v with
  | .obj fields => fields.lookup k
  | _ => none

/-- Modelled from the spec: the `Prompt` record type (`crate::types::Prompt`)
is not under src/; its fields are taken from spec §3 and the file-format
example of §6 (`id`, `title`, `content`, optional `description` and
`category`, `tags`). -/
structure Prompt where
  id : String
  title : String
  content : String
  description : Option String
  category : Option String
  tags : List String
deriving DecidableEq, Repr

/-- The `MetaInfo` struct of jsonl.rs (lines 27–33): the payload of the JSONL
metadata header.  `count : usize` is a `Nat`, `schema_version : i32` an
`Int`. -/
structure MetaInfo where
  version : String
  count : Nat
  exported_at : String
  schema_version : Int
deriving DecidableEq, Repr

/-- The `JsonlMeta` struct of jsonl.rs (lines 21–25): the header record,
serialized under the single reserved top-level key `"_meta"`. -/
structure JsonlMeta where
  meta : MetaInfo
deriving DecidableEq, Repr

/-- serde serialization of an `Option<String>` field: `None` becomes JSON
null, `Some s` the string. -/
def encodeOptStr : Option String → Json
  | none => .null
  | some s => .str s

/-- serde serialization of a `Prompt` (what `serde_json::to_writer(prompt)`
emits on one line of the export file): an object with the record's fields. -/
def encodePrompt (p : Prompt) : Json :=
  .obj [("id", .str p.id), ("title", .str p.title), ("content", .str p.content),
        ("description", encodeOptStr p.description),
        ("category", encodeOptStr p.category),
        ("tags", .arr (p.tags.map .str))]

/-- serde serialization of the `JsonlMeta` header (what
`serde_json::to_writer(&meta)` emits as the first line of the export file). -/
def encodeMeta (h : JsonlMeta) : Json :=
  .obj [("_meta", .obj [("version", .str h.meta.version),
                        ("count", .num h.meta.count),
                        ("exported_at", .str h.meta.exported_at),
                        ("schema_version", .num h.meta.schema_version)])]

/-- serde deserialization of a required string field. -/
def decodeStr : Json → Option String
  | .str s => some s
  | _ => none

/-- serde deserialization of an `Option<String>` field that is present:
null decodes to `none`, a string to `some`. -/
def decodeOptStr : Json → Option (Option String)
  | .null => some none
  | .str s => some (some s)
  | _ => none

/-- serde deserialization of a `usize` field: a non-negative JSON integer. -/
def decodeNat : Json → Option Nat
  | .num n => if 0 ≤ n then some n.toNat else none
  | _ => none

/-- serde deserialization of an `i32` field (range left unbounded: no claim
depends on it). -/
def decodeInt : Json → Option Int
  | .num n => some n
  | _ => none

/-- serde deserialization of a `Vec<String>` element list. -/
def decodeStrList : List Json → Option (List String)
  | [] => some []
  | .str s :: rest => (decodeStrList rest).map (s :: ·)
  | _ => none

/-- serde deserialization of a `Prompt` (what
`serde_json::from_str::<Prompt>` accepts, line 139 of jsonl.rs): an object
with required string fields `id`, `title`, `content`, optional
`description`/`category` (absent or null mean `None`), and a string-array
`tags`; unknown fields are ignored (serde's default). -/
def decodePrompt : Json → Option Prompt
  | .obj fields =>
    match decodeStr ((fields.lookup "id").getD .null),
          decodeStr ((fields.lookup "title").getD .null),
          decodeStr ((fields.lookup "content").getD .null),
          decodeOptStr ((fields.lookup "description").getD .null),
          decodeOptStr ((fields.lookup "category").getD .null),
          (fields.lookup "tags") with
    | some i, some t, some c, some d, some g, some (.arr xs) =>
      (decodeStrList xs).map (fun tags => ⟨i, t, c, d, g, tags⟩)
    | _, _, _, _, _, _ => none
  | _ => none

/-- serde deserialization of the `JsonlMeta` header (what
`serde_json::from_value::<JsonlMeta>` accepts, lines 130–133 of jsonl.rs):
an object whose `_meta` field is an object with the four required
`MetaInfo` fields. -/
def decodeMeta : Json → Option JsonlMeta
  | .obj fields =>
    match fields.lookup "_meta" with
    | some (.obj ms) =>
      match decodeStr ((ms.lookup "version").getD .null),
            decodeNat ((ms.lookup "count").getD .null),
            decodeStr ((ms.lookup "exported_at").getD .null),
            decodeInt ((ms.lookup "schema_version").getD .null) with
      | some v, some c, some e, some s => some ⟨⟨v, c, e, s⟩⟩
      | _, _, _, _ => none
    | _ => none
  | _ => none

/-- Modelled from the spec: the Record Store (`super::Database`, not under
src/).  Spec §2/§4.3: durable storage of prompt records in a stable
enumeration order, plus a string-keyed metadata table. -/
structure Database where
  prompts : List Prompt
  meta : List (String × String)
deriving DecidableEq, Repr

/-- Modelled from the spec: `list_prompts()` returns the full current record
set in the store's enumeration order (spec §4.3). -/
def Database.list_prompts (db : Database) : List Prompt :=
  db.prompts

/-- Modelled from the spec: `get_meta(key)` reads the metadata side table
(spec §4.3, optional string result; the Rust `Result` error case for an
absent key is the `none` case here). -/
def Database.get_meta (db : Database) (k : String) : Option String :=
  db.meta.lookup k

/-- Modelled from the spec: `set_meta(key, value)` durably updates or inserts
one metadata entry (spec §4.3). -/
def Database.set_meta (db : Database) (k v : String) : Database :=
  if db.meta.any (fun kv => kv.1 = k) then
    { db with meta := db.meta.map (fun kv => if kv.1 = k then (k, v) else kv) }
  else
    { db with meta := db.meta ++ [(k, v)] }

/-- Modelled from the spec: one upsert step of the Record Store, keyed by
`id` — same `id` overwrites in place, a new `id` appends (spec §3 invariant
and §4.2 design rationale: upsert by natural key, never delete). -/
def upsertOne (ps : List Prompt) (p : Prompt) : List Prompt :=
  if ps.any (fun q => q.id = p.id) then
    ps.map (fun q => if q.id = p.id then p else q)
  else
    ps ++ [p]

/-- Modelled from the spec: `bulk_upsert_prompts(records)` applies the
records in order as one transaction, each upserting by `id` (spec §4.3
and §4.2: upsert-only, records absent from the batch are unaffected). -/
def Database.bulk_upsert_prompts (db : Database) (records : List Prompt) : Database :=
  { db with prompts := records.foldl upsertOne db.prompts }

/-- Modelled from the spec: `crate::storage::SCHEMA_VERSION`, a fixed integer
constant stamped into every export header (spec §4.3; its value is not
observable by any claim). -/
def SCHEMA_VERSION : Int := 1

/-- Version read `get_data_version` (jsonl.rs lines 154–157): read the `data_version`
metadata key, falling back to the current timestamp when it is unset.  A
pure read: the database is not modified. -/
def get_data_version (db : Database) (now : String) : String :=
  (db.get_meta "data_version").getD now

/-- Version write `update_data_version` (jsonl.rs lines 160–162): stamp the current
timestamp into the `data_version` metadata key. -/
def update_data_version (db : Database) (now : String) : Database :=
  db.set_meta "data_version" now

/-- One line of a JSONL file, at the granularity the import loop inspects it:
blank after trimming (skipped, jsonl.rs line 119), non-blank but not valid
JSON, or non-blank and parsing to a JSON value. -/
inductive LineVal where
  | blank
  | badJson
  | json (v : Json)

/-- The errors the two engines can return (the payload of the Rust
`anyhow::Result`).  Parse errors carry the 1-based line number stamped into
the message by `with_context` (jsonl.rs lines 128, 132, 140). -/
inductive OpErr where
  | parseJson (line : Nat)
  | parseMeta (line : Nat)
  | parsePrompt (line : Nat)
  | storeList
  | storeUpsert
  | storeMeta
  | fileWrite
  | renameFail
deriving DecidableEq, Repr

/-- A durable effect performed by an engine run, in order: the destination
file atomically replaced with the given lines (export's rename), a committed
bulk-upsert transaction, or a committed metadata write. -/
inductive Effect where
  | fileReplaced (lines : List LineVal)
  | bulkUpsert (records : List Prompt)
  | setMeta (k v : String)

/-- Success flags for the fallible operations export performs, in program
order: `list_prompts`, temp-file create/write/flush/fsync, the atomic
rename, and `set_meta`. -/
structure ExportFx where
  listOk : Bool
  fileOk : Bool
  renameOk : Bool
  setMetaOk : Bool

/-- Success flags for the fallible store operations import performs:
`bulk_upsert_prompts` and `set_meta`. -/
structure ImportFx where
  bulkUpsertOk : Bool
  setMetaOk : Bool

/-- The line-scanning loop of `import_jsonl` (jsonl.rs lines 110–142).
`lineNum` is the 1-based number of the next line, `sawFirst` the
`saw_first_non_empty` flag, `acc` the accumulated prompts.  Blank lines are
skipped; exactly the first non-blank line is parsed as generic JSON and, when
it is an object with a top-level `_meta` key, decoded as the header and
discarded; every other non-blank line (and a first line that is not such an
object) is parsed as a prompt; any parse failure aborts with its line
number. -/
def parseLines : List LineVal → Nat → Bool → List Prompt → Except OpErr (List Prompt)
  | [], _, _, acc => .ok acc
  | .blank :: rest, lineNum, sawFirst, acc =>
    parseLines rest (lineNum + 1) sawFirst acc
  | .badJson :: _, lineNum, sawFirst, _ =>
    if sawFirst then .error (.parsePrompt lineNum) else .error (.parseJson lineNum)
  | .json v :: rest, lineNum, sawFirst, acc =>
    if sawFirst then
      match decodePrompt v with
      | some p => parseLines rest (lineNum + 1) true (acc ++ [p])
      | none => .error (.parsePrompt lineNum)
    else
      if (jsonGet v "_meta").isSome then
        match decodeMeta v with
        | some _ => parseLines rest (lineNum + 1) true acc
        | none => .error (.parseMeta lineNum)
      else
        match decodePrompt v with
        | some p => parseLines rest (lineNum + 1) true (acc ++ [p])
        | none => .error (.parsePrompt lineNum)

/-- Import engine `import_jsonl` (jsonl.rs lines 105–151): scan and parse the whole file,
then perform one bulk-upsert transaction, then advance the version marker,
and return the number of prompt records imported.  The first component lists
the durable effects the run performed, in order; a failed transaction rolls
back and leaves no effect. -/
def import_jsonl (db : Database) (file : List LineVal) (fx : ImportFx) (now : String) :
    List Effect × Except OpErr (Database × Nat) :=
  match parseLines file 1 false [] with
  | .error e => ([], .error e)
  | .ok prompts =>
    if fx.bulkUpsertOk then
      let db1 := db.bulk_upsert_prompts prompts
      if fx.setMetaOk then
        ([.bulkUpsert prompts, .setMeta "data_version" now],
         .ok (update_data_version db1 now, prompts.length))
      else
        ([.bulkUpsert prompts], .error .storeMeta)
    else
      ([], .error .storeUpsert)

/-- Export engine `export_jsonl` (jsonl.rs lines 41–99): snapshot the store, build the
header (its `version` read through `get_data_version`, its `count` the
snapshot length), write header line then one line per prompt in enumeration
order to a temp file, fsync, atomically rename over the destination, then
advance the version marker and return the count.  Failures before the rename
leave the destination untouched (no `fileReplaced` effect). -/
def export_jsonl (db : Database) (fx : ExportFx) (now : String) :
    List Effect × Except OpErr (Database × List LineVal × Nat) :=
  if fx.listOk then
    let prompts := db.list_prompts
    let count := prompts.length
    let header : JsonlMeta := ⟨⟨get_data_version db now, count, now, SCHEMA_VERSION⟩⟩
    let lines := LineVal.json (encodeMeta header) ::
      prompts.map (fun p => LineVal.json (encodePrompt p))
    if fx.fileOk then
      if fx.renameOk then
        if fx.setMetaOk then
          ([.fileReplaced lines, .setMeta "data_version" now],
           .ok (update_data_version db now, lines, count))
        else
          ([.fileReplaced lines], .error .storeMeta)
      else
        ([], .error .renameFail)
    else
      ([], .error .fileWrite)
  else
    ([], .error .storeList)

/-- Statement-side characterization: a line that the import loop cannot
consume when it is the first non-blank line of the file — not valid JSON, a
`_meta`-keyed object that is not a well-formed header, or any other value
that is not a well-formed prompt record. -/
def badAsFirst : LineVal → Bool
  | .blank => false
  | .badJson => true
  | .json v =>
    if (jsonGet v "_meta").isSome then (decodeMeta v).isNone else (decodePrompt v).isNone

/-- Statement-side characterization: a line that the import loop cannot
consume after the first non-blank line — not valid JSON or not a well-formed
prompt record. -/
def badAsLater : LineVal → Bool
  | .blank => false
  | .badJson => true
  | .json v => (decodePrompt v).isNone

/-- Statement-side characterization: the 1-based number of the first line of
the file that the import loop cannot consume, if any, mirroring its
position-dependent roles (header candidates exist only at the first
non-blank line). -/
def firstBadLine : List LineVal → Nat → Bool → Option Nat
  | [], _, _ => none
  | .blank :: rest, lineNum, saw => firstBadLine rest (lineNum + 1) saw
  | .badJson :: _, lineNum, _ => some lineNum
  | .json v :: rest, lineNum, false =>
    if badAsFirst (.json v) then some lineNum else firstBadLine rest (lineNum + 1) true
  | .json v :: rest, lineNum, true =>
    if badAsLater (.json v) then some lineNum else firstBadLine rest (lineNum + 1) true

/-- The 1-based line number an error message carries, when it is a parse
error (mirrors the `with_context` line stamps of jsonl.rs). -/
def errLine : OpErr → Option Nat
  | .parseJson n => some n
  | .parseMeta n => some n
  | .parsePrompt n => some n
  | _ => none

/-- Whether an effect is a write of the `data_version` metadata key. -/
def isDataVersionWrite : Effect → Bool
  | .setMeta k _ => k == "data_version"
  | _ => false

/-- The number of `data_version` writes in an effect list. -/
def setMetaWrites (tr : List Effect) : Nat :=
  (tr.filter isDataVersionWrite).length

/-- A concrete prompt whose `content` field mentions the literal text
`_meta` (mirroring the fixture of
`test_import_does_not_skip_first_prompt_with_meta_in_content`). -/
def metaMentionPrompt : Prompt :=
  ⟨"first", "First", "content mentioning _meta should still import", none, none, []⟩

/-- A second concrete prompt fixture. -/
def secondPrompt : Prompt :=
  ⟨"second", "Second", "second content", none, none, []⟩

/-- A concrete prompt already present in a store before an import. -/
def stalePrompt : Prompt :=
  ⟨"z", "Stale", "kept by upsert-only import", none, none, []⟩

/-- A concrete prompt arriving from an import file. -/
def newPrompt : Prompt :=
  ⟨"a", "New", "incoming record", none, none, []⟩

/-- A concrete well-formed header fixture. -/
def sampleHeader : JsonlMeta :=
  ⟨⟨"v1", 99, "2026-01-01T00:00:00Z", 1⟩⟩

theorem decodeStrList_map_str (xs : List String) :
    decodeStrList (xs.map .str) = some xs := by
  induction xs with
  | nil => rfl
  | cons x xs ih => simp [decodeStrList, ih]

/-- Round trip of the prompt codec: what export writes on a line, import
decodes back to the same record. -/
theorem decodePrompt_encodePrompt (p : Prompt) :
    decodePrompt (encodePrompt p) = some p := by
  obtain ⟨i, t, c, d, g, tags⟩ := p
  cases d <;> cases g <;>
    simp [encodePrompt, decodePrompt, List.lookup, decodeStr, decodeOptStr,
      encodeOptStr, decodeStrList_map_str]

/-- Round trip of the header codec. -/
theorem decodeMeta_encodeMeta (h : JsonlMeta) :
    decodeMeta (encodeMeta h) = some h := by
  obtain ⟨⟨v, c, e, s⟩⟩ := h
  simp [encodeMeta, decodeMeta, List.lookup, decodeStr, decodeNat, decodeInt]

/-- A serialized header is recognized by the structural `_meta` check. -/
theorem jsonGet_encodeMeta (h : JsonlMeta) :
    (jsonGet (encodeMeta h) "_meta").isSome = true := by
  simp [encodeMeta, jsonGet, List.lookup]

/-- A serialized prompt record has no top-level `_meta` key, whatever its
field values contain. -/
theorem jsonGet_encodePrompt (p : Prompt) :
    jsonGet (encodePrompt p) "_meta" = none := by
  simp [encodePrompt, jsonGet, List.lookup]

/-- A value the header decoder accepts has a top-level `_meta` key. -/
theorem jsonGet_isSome_of_decodeMeta (v : Json) (h : JsonlMeta)
    (hv : decodeMeta v = some h) : (jsonGet v "_meta").isSome = true := by
  cases v with
  | obj fields =>
    simp only [decodeMeta] at hv
    simp only [jsonGet]
    cases hm : fields.lookup "_meta" with
    | none => rw [hm] at hv; exact absurd hv (by simp)
    | some w => simp
  | null => exact absurd hv (by simp [decodeMeta])
  | bool b => exact absurd hv (by simp [decodeMeta])
  | num n => exact absurd hv (by simp [decodeMeta])
  | str s => exact absurd hv (by simp [decodeMeta])
  | arr xs => exact absurd hv (by simp [decodeMeta])

/-- Scanning a run of serialized prompt records appends them, in order, to
the accumulator. -/
theorem parseLines_prompts (ps : List Prompt) (n : Nat) (acc : List Prompt) :
    parseLines (ps.map (fun p => .json (encodePrompt p))) n true acc = .ok (acc ++ ps) := by
  induction ps generalizing n acc with
  | nil => simp [parseLines]
  | cons p ps ih =>
    simp [parseLines, decodePrompt_encodePrompt, ih]

/-- Blank lines are skipped while counting toward line numbers, and do not
flip the first-non-blank flag. -/
theorem parseLines_blanks (xs : List LineVal) (rest : List LineVal) (n : Nat)
    (saw : Bool) (acc : List Prompt) (h : ∀ l ∈ xs, l = .blank) :
    parseLines (xs ++ rest) n saw acc = parseLines rest (n + xs.length) saw acc := by
  induction xs generalizing n with
  | nil => simp
  | cons x xs ih =>
    have hx : x = .blank := h x (by simp)
    subst hx
    have := ih (n + 1) (fun l hl => h l (by simp [hl]))
    simp [parseLines, this]
    ring_nf

theorem upsertOne_of_not_mem (ps : List Prompt) (p : Prompt)
    (h : ∀ q ∈ ps, q.id ≠ p.id) : upsertOne ps p = ps ++ [p] := by
  have : ps.any (fun q => q.id = p.id) = false := by
    simp only [List.any_eq_false, decide_eq_true_eq]
    intro q hq
    exact h q hq
  simp [upsertOne, this]

/-- Bulk-upserting records whose ids are fresh and mutually distinct is a
plain append. -/
theorem bulkUpsert_disjoint (new : List Prompt) (ps : List Prompt)
    (hnd : (new.map Prompt.id).Nodup)
    (hdisj : ∀ p ∈ new, ∀ q ∈ ps, q.id ≠ p.id) :
    new.foldl upsertOne ps = ps ++ new := by
  induction new generalizing ps with
  | nil => simp
  | cons p new ih =>
    rw [List.foldl_cons, upsertOne_of_not_mem ps p (fun q hq => hdisj p (by simp) q hq)]
    rw [ih]
    · simp
    · simpa using hnd.of_cons
    · intro r hr q hq
      rcases List.mem_append.mp hq with hq | hq
      · exact hdisj r (by simp [hr]) q hq
      · simp at hq
        subst hq
        simp at hnd
        intro hid
        exact hnd.1 r hr hid.symm

/-- Writing a metadata key never touches the prompt records. -/
theorem prompts_set_meta (db : Database) (k v : String) :
    (db.set_meta k v).prompts = db.prompts := by
  unfold Database.set_meta
  split <;> rfl

/-- A record whose id differs from the upserted one survives unchanged. -/
theorem mem_upsertOne_of_ne_id (ps : List Prompt) (p q : Prompt)
    (hq : q ∈ ps) (hne : q.id ≠ p.id) : q ∈ upsertOne ps p := by
  unfold upsertOne
  split
  · exact List.mem_map.mpr ⟨q, hq, by simp [hne]⟩
  · exact List.mem_append_left _ hq

/-- A record whose id is touched by none of the batch survives a bulk upsert
unchanged. -/
theorem mem_foldl_upsert_of_disjoint (new : List Prompt) :
    ∀ ps q, q ∈ ps → (∀ p ∈ new, p.id ≠ q.id) → q ∈ new.foldl upsertOne ps := by
  induction new with
  | nil => intro ps q hq _; simpa using hq
  | cons p new ih =>
    intro ps q hq hdisj
    rw [List.foldl_cons]
    exact ih (upsertOne ps p) q
      (mem_upsertOne_of_ne_id ps p q hq (Ne.symm (hdisj p (by simp))))
      (fun r hr => hdisj r (by simp [hr]))

/-- The upserted record itself is in the result. -/
theorem mem_upsertOne_self (ps : List Prompt) (p : Prompt) : p ∈ upsertOne ps p := by
  unfold upsertOne
  split
  case isTrue h =>
    obtain ⟨a, ha, haid⟩ : ∃ a ∈ ps, a.id = p.id := by simpa using h
    exact List.mem_map.mpr ⟨a, ha, by simp [haid]⟩
  case isFalse h => simp

/-- An upsert step preserves every id already present. -/
theorem upsertOne_preserves_id (ps : List Prompt) (p r : Prompt) (hr : r ∈ ps) :
    ∃ s ∈ upsertOne ps p, s.id = r.id := by
  unfold upsertOne
  split
  case isTrue h =>
    refine ⟨if r.id = p.id then p else r, List.mem_map.mpr ⟨r, hr, rfl⟩, ?_⟩
    by_cases hid : r.id = p.id
    · simp [hid]
    · simp [hid]
  case isFalse h => exact ⟨r, List.mem_append_left _ hr, rfl⟩

/-- A bulk upsert preserves every id already present. -/
theorem foldl_upsert_preserves_id (new : List Prompt) :
    ∀ ps r, r ∈ ps → ∃ s ∈ new.foldl upsertOne ps, s.id = r.id := by
  induction new with
  | nil => intro ps r hr; exact ⟨r, by simpa using hr, rfl⟩
  | cons p new ih =>
    intro ps r hr
    obtain ⟨s, hs, hsid⟩ := upsertOne_preserves_id ps p r hr
    obtain ⟨u, hu, huid⟩ := ih (upsertOne ps p) s hs
    exact ⟨u, by simpa using hu, huid.trans hsid⟩

/-- Every record of the batch lands in the store, up to id. -/
theorem mem_id_foldl_upsert (new : List Prompt) :
    ∀ ps p, p ∈ new → ∃ r ∈ new.foldl upsertOne ps, r.id = p.id := by
  induction new with
  | nil => intro ps p hp; exact absurd hp (by simp)
  | cons q new ih =>
    intro ps p hp
    rcases List.mem_cons.mp hp with hp | hp
    · subst hp
      obtain ⟨r, hr, hrid⟩ :=
        foldl_upsert_preserves_id new (upsertOne ps p) p (mem_upsertOne_self ps p)
      exact ⟨r, by simpa using hr, hrid⟩
    · obtain ⟨r, hr, hrid⟩ := ih (upsertOne ps q) p hp
      exact ⟨r, by simpa using hr, hrid⟩


/-- C1: Round-trip — exporting any store whose record ids are unique (the
store invariant) and importing the produced file into a fresh empty store
yields exactly the original record list, field for field, and the import
count equals the export count. -/
theorem roundtrip_export_import (db : Database) (now now2 : String)
    (h : (db.prompts.map Prompt.id).Nodup) :
    ∃ db1 lines,
      (export_jsonl db ⟨true, true, true, true⟩ now).2 =
        .ok (db1, lines, db.prompts.length) ∧
      (import_jsonl ⟨[], []⟩ lines ⟨true, true⟩ now2).2 =
        .ok (⟨db.prompts, [("data_version", now2)]⟩, db.prompts.length) := by
  refine ⟨update_data_version db now,
    .json (encodeMeta ⟨⟨get_data_version db now, db.prompts.length, now, SCHEMA_VERSION⟩⟩) ::
      db.prompts.map (fun p => .json (encodePrompt p)), rfl, ?_⟩
  have hparse : parseLines
      (LineVal.json (encodeMeta ⟨⟨get_data_version db now, db.prompts.length, now,
        SCHEMA_VERSION⟩⟩) :: db.prompts.map (fun p => .json (encodePrompt p)))
      1 false [] = .ok db.prompts := by
    simp [parseLines, jsonGet_encodeMeta, decodeMeta_encodeMeta, parseLines_prompts]
  have hbulk : (Database.bulk_upsert_prompts ⟨[], []⟩ db.prompts) = ⟨db.prompts, []⟩ := by
    simp [Database.bulk_upsert_prompts, bulkUpsert_disjoint db.prompts [] h (by simp)]
  simp [import_jsonl, hparse, hbulk, update_data_version, Database.set_meta]

/-- Witness for C1 at a concrete two-record store. -/
theorem roundtrip_export_import_witness :
    ∃ db1 lines,
      (export_jsonl ⟨[stalePrompt, newPrompt], []⟩ ⟨true, true, true, true⟩ "t1").2 =
        .ok (db1, lines, 2) ∧
      (import_jsonl ⟨[], []⟩ lines ⟨true, true⟩ "t2").2 =
        .ok (⟨[stalePrompt, newPrompt], [("data_version", "t2")]⟩, 2) :=
  roundtrip_export_import ⟨[stalePrompt, newPrompt], []⟩ "t1" "t2" (by decide)

/-- Helper: when the file has an offending line, the scan loop fails with a
parse error carrying the 1-based number of the first such line. -/
theorem parseLines_error_of_firstBad (lines : List LineVal) :
    ∀ (m : Nat) (saw : Bool) (acc : List Prompt) (n : Nat),
      firstBadLine lines m saw = some n →
      ∃ e, parseLines lines m saw acc = .error e ∧ errLine e = some n := by
  induction lines with
  | nil => intro m saw acc n h; exact absurd h (by simp [firstBadLine])
  | cons l rest ih =>
    intro m saw acc n h
    cases l with
    | blank =>
      rw [firstBadLine] at h
      rw [parseLines]
      exact ih (m + 1) saw acc n h
    | badJson =>
      rw [firstBadLine] at h
      obtain rfl : m = n := by simpa using h
      cases saw with
      | true => exact ⟨.parsePrompt m, by simp [parseLines], rfl⟩
      | false => exact ⟨.parseJson m, by simp [parseLines], rfl⟩
    | json v =>
      cases saw with
      | true =>
        rw [firstBadLine] at h
        cases hp : decodePrompt v with
        | none =>
          rw [if_pos (by simp [badAsLater, hp])] at h
          obtain rfl : m = n := by simpa using h
          exact ⟨.parsePrompt m, by simp [parseLines, hp], rfl⟩
        | some p =>
          rw [if_neg (by simp [badAsLater, hp])] at h
          obtain ⟨e, he, hn⟩ := ih (m + 1) true (acc ++ [p]) n h
          exact ⟨e, by simp [parseLines, hp, he], hn⟩
      | false =>
        rw [firstBadLine] at h
        cases hm : (jsonGet v "_meta").isSome with
        | true =>
          cases hd : decodeMeta v with
          | none =>
            rw [if_pos (by simp [badAsFirst, hm, hd])] at h
            obtain rfl : m = n := by simpa using h
            exact ⟨.parseMeta m, by simp [parseLines, hm, hd], rfl⟩
          | some w =>
            rw [if_neg (by simp [badAsFirst, hm, hd])] at h
            obtain ⟨e, he, hn⟩ := ih (m + 1) true acc n h
            exact ⟨e, by simp [parseLines, hm, hd, he], hn⟩
        | false =>
          cases hp : decodePrompt v with
          | none =>
            rw [if_pos (by simp [badAsFirst, hm, hp])] at h
            obtain rfl : m = n := by simpa using h
            exact ⟨.parsePrompt m, by simp [parseLines, hm, hp], rfl⟩
          | some p =>
            rw [if_neg (by simp [badAsFirst, hm, hp])] at h
            obtain ⟨e, he, hn⟩ := ih (m + 1) true (acc ++ [p]) n h
            exact ⟨e, by simp [parseLines, hm, hp, he], hn⟩

/-- C2: Partial-content rejection — a source file with a non-blank line
that import cannot consume (in its positional role: unparsable JSON, malformed
header, or non-prompt record) makes `import_jsonl` return an error carrying
the 1-based number of the first offending line, with an empty effect list:
nothing is persisted and the store is untouched. -/
theorem import_malformed_line_aborts (db : Database) (file : List LineVal)
    (fx : ImportFx) (now : String) (n : Nat)
    (h : firstBadLine file 1 false = some n) :
    (import_jsonl db file fx now).1 = [] ∧
    ∃ e, (import_jsonl db file fx now).2 = .error e ∧ errLine e = some n := by
  obtain ⟨e, he, hn⟩ := parseLines_error_of_firstBad file 1 false [] n h
  refine ⟨by simp [import_jsonl, he], e, by simp [import_jsonl, he], hn⟩

/-- Witness for C2: a good record line followed by an unparsable line 2. -/
theorem import_malformed_line_aborts_witness :
    (import_jsonl ⟨[stalePrompt], []⟩ [.json (encodePrompt newPrompt), .badJson]
        ⟨true, true⟩ "t").1 = [] ∧
    ∃ e, (import_jsonl ⟨[stalePrompt], []⟩ [.json (encodePrompt newPrompt), .badJson]
        ⟨true, true⟩ "t").2 = .error e ∧ errLine e = some 2 :=
  import_malformed_line_aborts ⟨[stalePrompt], []⟩
    [.json (encodePrompt newPrompt), .badJson] ⟨true, true⟩ "t" 2 rfl

/-- C3: Header disambiguation is structural and first-line-only — a first
non-blank line whose JSON value has no top-level `_meta` key is handled as
an ordinary record even when its content text mentions `_meta` (concrete
instance included); a first non-blank line with a top-level `_meta` key is
decoded as the header and discarded; after the first non-blank line the
`_meta` check never happens; blank lines do not consume the header slot. -/
theorem header_detection_structural (v : Json) (rest : List LineVal) (lineNum : Nat)
    (acc : List Prompt) (saw : Bool) :
    ((import_jsonl ⟨[], []⟩ [.json (encodePrompt metaMentionPrompt),
        .json (encodePrompt secondPrompt)] ⟨true, true⟩ "t").2 =
      .ok (⟨[metaMentionPrompt, secondPrompt], [("data_version", "t")]⟩, 2)) ∧
    (∃ pre post, metaMentionPrompt.content = pre ++ "_meta" ++ post) ∧
    (jsonGet v "_meta" = none → ∀ p, decodePrompt v = some p →
      parseLines (.json v :: rest) lineNum false acc =
        parseLines rest (lineNum + 1) true (acc ++ [p])) ∧
    (jsonGet v "_meta" = none → decodePrompt v = none →
      parseLines (.json v :: rest) lineNum false acc = .error (.parsePrompt lineNum)) ∧
    ((jsonGet v "_meta").isSome = true → ∀ h, decodeMeta v = some h →
      parseLines (.json v :: rest) lineNum false acc =
        parseLines rest (lineNum + 1) true acc) ∧
    ((jsonGet v "_meta").isSome = true → decodeMeta v = none →
      parseLines (.json v :: rest) lineNum false acc = .error (.parseMeta lineNum)) ∧
    (∀ p, decodePrompt v = some p →
      parseLines (.json v :: rest) lineNum true acc =
        parseLines rest (lineNum + 1) true (acc ++ [p])) ∧
    (parseLines (.blank :: rest) lineNum saw acc =
      parseLines rest (lineNum + 1) saw acc) := by
  refine ⟨rfl, ⟨"content mentioning ", " should still import", rfl⟩, ?_, ?_, ?_, ?_, ?_, ?_⟩
  · intro h p hp; simp [parseLines, h, hp]
  · intro h hp; simp [parseLines, h, hp]
  · intro h hd hhd; simp [parseLines, h, hhd]
  · intro h hd; simp [parseLines, h, hd]
  · intro p hp; simp [parseLines, hp]
  · simp [parseLines]

/-- Witness for C3: the concrete `_meta`-in-content file imports both
records, and a serialized header line is dropped. -/
theorem header_detection_structural_witness :
    (import_jsonl ⟨[], []⟩ [.json (encodePrompt metaMentionPrompt),
        .json (encodePrompt secondPrompt)] ⟨true, true⟩ "t").2 =
      .ok (⟨[metaMentionPrompt, secondPrompt], [("data_version", "t")]⟩, 2) ∧
    parseLines [.json (encodeMeta sampleHeader)] 1 false [] =
      parseLines [] 2 true [] := by
  have h := header_detection_structural (encodeMeta sampleHeader) [] 1 [] false
  exact ⟨h.1, h.2.2.2.2.1 (by rfl) sampleHeader (by rfl)⟩

/-- Counterexample for C4 as stated: importing a one-record file into a
store holding a record with a different id succeeds, but the resulting
record set `[stalePrompt, newPrompt]` is not the file's decoded set
`[newPrompt]` — the pre-existing record survives, so import does not replace
the entire store contents. -/
theorem import_not_full_replace_cex :
    parseLines [.json (encodePrompt newPrompt)] 1 false [] = .ok [newPrompt] ∧
    (import_jsonl ⟨[stalePrompt], []⟩ [.json (encodePrompt newPrompt)]
        ⟨true, true⟩ "t").2 =
      .ok (⟨[stalePrompt, newPrompt], [("data_version", "t")]⟩, 1) ∧
    [stalePrompt, newPrompt] ≠ [newPrompt] ∧
    stalePrompt ∈ [stalePrompt, newPrompt] ∧ stalePrompt ∉ [newPrompt] :=
  ⟨rfl, rfl, by decide, by decide, by decide⟩

/-- C4 (amended): after a successful `import_jsonl`, the store's record list
is the bulk upsert of the file's decoded records into the previous contents:
the returned count is the number of decoded records, every previous record
whose id is absent from the file survives unchanged, and every decoded
record's id is present in the store. -/
theorem import_upsert_semantics (db : Database) (file : List LineVal) (fx : ImportFx)
    (now : String) (ps : List Prompt) (db' : Database) (n : Nat)
    (hps : parseLines file 1 false [] = .ok ps)
    (hok : (import_jsonl db file fx now).2 = .ok (db', n)) :
    db'.prompts = ps.foldl upsertOne db.prompts ∧ n = ps.length ∧
    (∀ q ∈ db.prompts, (∀ p ∈ ps, p.id ≠ q.id) → q ∈ db'.prompts) ∧
    (∀ p ∈ ps, ∃ r ∈ db'.prompts, r.id = p.id) := by
  rcases fx with ⟨bu, sm⟩
  cases bu <;> cases sm <;> simp [import_jsonl, hps] at hok
  obtain ⟨hdb, hn⟩ := hok
  have hp : db'.prompts = ps.foldl upsertOne db.prompts := by
    rw [← hdb]
    rw [update_data_version, prompts_set_meta]
    rfl
  refine ⟨hp, hn.symm, ?_, ?_⟩
  · intro q hq hdisj
    rw [hp]
    exact mem_foldl_upsert_of_disjoint ps db.prompts q hq hdisj
  · intro p hpp
    rw [hp]
    exact mem_id_foldl_upsert ps db.prompts p hpp

/-- Witness for C4 (amended) at a concrete store and file. -/
theorem import_upsert_semantics_witness :
    [stalePrompt, newPrompt] = [newPrompt].foldl upsertOne [stalePrompt] ∧
    (1 : Nat) = [newPrompt].length ∧
    (∀ q ∈ [stalePrompt], (∀ p ∈ [newPrompt], p.id ≠ q.id) →
      q ∈ [stalePrompt, newPrompt]) ∧
    (∀ p ∈ [newPrompt], ∃ r ∈ [stalePrompt, newPrompt], r.id = p.id) :=
  import_upsert_semantics ⟨[stalePrompt], []⟩ [.json (encodePrompt newPrompt)]
    ⟨true, true⟩ "t" [newPrompt] ⟨[stalePrompt, newPrompt], [("data_version", "t")]⟩ 1
    rfl rfl

/-- C5: The `data_version` marker is written exactly once per successful
export or import, strictly after the primary effect (the bulk-upsert commit,
resp. the destination rename): a successful run's effect list is exactly
`[primary, setMeta]`, and a failed run performs no `data_version` write. -/
theorem data_version_once_after_primary (db : Database) (file : List LineVal)
    (ifx : ImportFx) (efx : ExportFx) (now : String) :
    (∀ db2 n, (import_jsonl db file ifx now).2 = .ok (db2, n) →
      ∃ ps, (import_jsonl db file ifx now).1 =
        [.bulkUpsert ps, .setMeta "data_version" now]) ∧
    (∀ e, (import_jsonl db file ifx now).2 = .error e →
      setMetaWrites (import_jsonl db file ifx now).1 = 0) ∧
    (∀ db2 lines n, (export_jsonl db efx now).2 = .ok (db2, lines, n) →
      (export_jsonl db efx now).1 =
        [.fileReplaced lines, .setMeta "data_version" now]) ∧
    (∀ e, (export_jsonl db efx now).2 = .error e →
      setMetaWrites (export_jsonl db efx now).1 = 0) := by
  rcases ifx with ⟨bu, sm⟩
  rcases efx with ⟨lo, fo, ro, so⟩
  refine ⟨?_, ?_, ?_, ?_⟩
  · intro db2 n hok
    cases hp : parseLines file 1 false [] <;>
      cases bu <;> cases sm <;> simp [import_jsonl, hp] at hok ⊢
  · intro e herr
    cases hp : parseLines file 1 false [] <;>
      cases bu <;> cases sm <;>
        simp [import_jsonl, hp, setMetaWrites, isDataVersionWrite] at herr ⊢
  · intro db2 lines n hok
    cases lo <;> cases fo <;> cases ro <;> cases so <;>
      simp [export_jsonl] at hok ⊢
    exact hok.2.1
  · intro e herr
    cases lo <;> cases fo <;> cases ro <;> cases so <;>
      simp [export_jsonl, setMetaWrites, isDataVersionWrite] at herr ⊢

/-- Witness for C5 on concrete successful runs of both engines. -/
theorem data_version_once_after_primary_witness :
    (∃ ps, (import_jsonl ⟨[], []⟩ [] ⟨true, true⟩ "t").1 =
      [.bulkUpsert ps, .setMeta "data_version" "t"]) ∧
    (export_jsonl ⟨[], []⟩ ⟨true, true, true, true⟩ "t").1 =
      [.fileReplaced [.json (encodeMeta ⟨⟨"t", 0, "t", 1⟩⟩)],
       .setMeta "data_version" "t"] := by
  have h := data_version_once_after_primary ⟨[], []⟩ [] ⟨true, true⟩
    ⟨true, true, true, true⟩ "t"
  exact ⟨h.1 ⟨[], [("data_version", "t")]⟩ 0 rfl,
    h.2.2.1 ⟨[], [("data_version", "t")]⟩ [.json (encodeMeta ⟨⟨"t", 0, "t", 1⟩⟩)] 0 rfl⟩

/-- C6: Export output shape — the produced file is the serialized header
followed by one serialized line per record of `list_prompts`, in enumeration
order with no re-sorting; the header's `count` field, the number of record
lines, and the returned count all equal the length of `list_prompts`. -/
theorem export_output_shape (db : Database) (now : String) :
    (export_jsonl db ⟨true, true, true, true⟩ now).2 =
      .ok (update_data_version db now,
        .json (encodeMeta ⟨⟨get_data_version db now, db.list_prompts.length, now,
          SCHEMA_VERSION⟩⟩) :: db.list_prompts.map (fun p => .json (encodePrompt p)),
        db.list_prompts.length) ∧
    (db.list_prompts.map (fun p => LineVal.json (encodePrompt p))).length =
      db.list_prompts.length :=
  ⟨rfl, by simp⟩

/-- C7: No error is swallowed — a parse failure, a failed store operation or
a failed file operation each surface as a returned error; and the header's
`version` value equals the stored `data_version` when set, falling back to
`now` only when unset, a read that performs no store write (a run failing at
the rename has an empty effect list even though it evaluated the
fallback). -/
theorem errors_surface_and_version_read (db : Database) (file : List LineVal)
    (now : String) (ifx : ImportFx) (efx : ExportFx) :
    (db.get_meta "data_version" = none → get_data_version db now = now) ∧
    (∀ v, db.get_meta "data_version" = some v → get_data_version db now = v) ∧
    (∀ n, firstBadLine file 1 false = some n →
      ∃ e, (import_jsonl db file ifx now).2 = .error e) ∧
    (ifx.bulkUpsertOk = false → ∃ e, (import_jsonl db file ifx now).2 = .error e) ∧
    (ifx.setMetaOk = false → ∃ e, (import_jsonl db file ifx now).2 = .error e) ∧
    (efx.listOk = false → (export_jsonl db efx now).2 = .error .storeList) ∧
    (efx.listOk = true → efx.fileOk = false →
      (export_jsonl db efx now).2 = .error .fileWrite) ∧
    (efx.listOk = true → efx.fileOk = true → efx.renameOk = false →
      (export_jsonl db efx now).2 = .error .renameFail ∧
      (export_jsonl db efx now).1 = []) ∧
    (efx.setMetaOk = false → ∃ e, (export_jsonl db efx now).2 = .error e) := by
  rcases ifx with ⟨bu, sm⟩
  rcases efx with ⟨lo, fo, ro, so⟩
  refine ⟨?_, ?_, ?_, ?_, ?_, ?_, ?_, ?_, ?_⟩
  · intro h; simp [get_data_version, h]
  · intro v h; simp [get_data_version, h]
  · intro n h
    obtain ⟨e, he, _⟩ := parseLines_error_of_firstBad file 1 false [] n h
    exact ⟨e, by simp [import_jsonl, he]⟩
  · intro h
    subst h
    cases hp : parseLines file 1 false [] <;> cases sm <;>
      simp [import_jsonl, hp]
  · intro h
    subst h
    cases hp : parseLines file 1 false [] <;> cases bu <;>
      simp [import_jsonl, hp]
  · intro h; subst h; simp [export_jsonl]
  · intro h1 h2; subst h1; subst h2; simp [export_jsonl]
  · intro h1 h2 h3; subst h1; subst h2; subst h3; simp [export_jsonl]
  · intro h
    subst h
    cases lo <;> cases fo <;> cases ro <;> simp [export_jsonl]

/-- Witness for C7 at concrete failing runs and an empty metadata table. -/
theorem errors_surface_and_version_read_witness :
    get_data_version ⟨[], []⟩ "t" = "t" ∧
    (∃ e, (import_jsonl ⟨[], []⟩ [.badJson] ⟨true, true⟩ "t").2 = .error e) ∧
    (∃ e, (import_jsonl ⟨[], []⟩ [] ⟨false, true⟩ "t").2 = .error e) ∧
    (export_jsonl ⟨[], []⟩ ⟨true, true, false, true⟩ "t").2 = .error .renameFail ∧
    (export_jsonl ⟨[], []⟩ ⟨true, true, false, true⟩ "t").1 = [] := by
  have h1 := errors_surface_and_version_read ⟨[], []⟩ [.badJson] "t" ⟨true, true⟩
    ⟨true, true, false, true⟩
  have h2 := errors_surface_and_version_read ⟨[], []⟩ [] "t" ⟨false, true⟩
    ⟨true, true, false, true⟩
  refine ⟨h1.1 rfl, h1.2.2.1 1 rfl, h2.2.2.2.1 rfl, ?_, ?_⟩
  · exact (h1.2.2.2.2.2.2.2.1 rfl rfl rfl).1
  · exact (h1.2.2.2.2.2.2.2.1 rfl rfl rfl).2

/-- C8: Metadata-only file — a file whose only non-blank line is a valid
`_meta` header imports successfully with a count of 0. -/
theorem import_header_only_file (db : Database) (now : String) (v : Json)
    (hd : JsonlMeta) (xs ys : List LineVal)
    (hxs : ∀ l ∈ xs, l = .blank) (hys : ∀ l ∈ ys, l = .blank)
    (hv : decodeMeta v = some hd) :
    (import_jsonl db (xs ++ .json v :: ys) ⟨true, true⟩ now).2 =
      .ok (update_data_version db now, 0) := by
  have hm := jsonGet_isSome_of_decodeMeta v hd hv
  have h1 : parseLines (xs ++ .json v :: ys) 1 false [] = .ok [] := by
    rw [parseLines_blanks xs _ 1 false [] hxs]
    have h2 : parseLines ys (1 + xs.length + 1) true [] = .ok [] := by
      have := parseLines_blanks ys [] (1 + xs.length + 1) true [] hys
      simpa [parseLines] using this
    simp [parseLines, hm, hv, h2]
  simp [import_jsonl, h1]
  rfl

/-- Witness for C8: a blank line followed by a serialized header. -/
theorem import_header_only_file_witness :
    (import_jsonl ⟨[stalePrompt], []⟩ [.blank, .json (encodeMeta sampleHeader)]
        ⟨true, true⟩ "t").2 =
      .ok (update_data_version ⟨[stalePrompt], []⟩ "t", 0) :=
  import_header_only_file ⟨[stalePrompt], []⟩ "t" (encodeMeta sampleHeader) sampleHeader
    [.blank] [] (by simp) (by simp) rfl

/-- C9: Empty or all-blank file — `import_jsonl` succeeds with count 0,
still performing the bulk upsert of the empty record list and advancing the
`data_version` marker. -/
theorem import_blank_file (db : Database) (now : String) (file : List LineVal)
    (h : ∀ l ∈ file, l = .blank) :
    import_jsonl db file ⟨true, true⟩ now =
      ([.bulkUpsert [], .setMeta "data_version" now],
        .ok (update_data_version db now, 0)) := by
  have h1 : parseLines file 1 false [] = .ok [] := by
    have := parseLines_blanks file [] 1 false [] h
    simpa [parseLines] using this
  simp [import_jsonl, h1]
  rfl

/-- Witness for C9 on a two-blank-line file. -/
theorem import_blank_file_witness :
    import_jsonl ⟨[stalePrompt], []⟩ [.blank, .blank] ⟨true, true⟩ "t" =
      ([.bulkUpsert [], .setMeta "data_version" "t"],
        .ok (update_data_version ⟨[stalePrompt], []⟩ "t", 0)) :=
  import_blank_file ⟨[stalePrompt], []⟩ "t" [.blank, .blank] (by simp)

/-- C10: The header is validated for shape and discarded — its `count` field
(arbitrary in `hd`) is never cross-checked against the file, and the
returned count is the actual number of parsed records. -/
theorem import_ignores_header_count (db : Database) (now : String) (hd : JsonlMeta)
    (ps : List Prompt) :
    (import_jsonl db (.json (encodeMeta hd) :: ps.map (fun p => .json (encodePrompt p)))
        ⟨true, true⟩ now).2 =
      .ok (update_data_version (db.bulk_upsert_prompts ps) now, ps.length) := by
  have h1 : parseLines
      (LineVal.json (encodeMeta hd) :: ps.map (fun p => .json (encodePrompt p)))
      1 false [] = .ok ps := by
    simp [parseLines, jsonGet_encodeMeta, decodeMeta_encodeMeta, parseLines_prompts]
  simp [import_jsonl, h1, Database.bulk_upsert_prompts]

end Jfp
